import Mathlib

/-!
# Adaptive flashcard scheduler of AmitieFrancais — shallow embedding

This file embeds the adaptive item-selection scheduler that is duplicated
(nearly verbatim) across `src/pages/NewsVocab.tsx`, `src/pages/Nominalisation.tsx`,
`src/pages/Temps.tsx` and `src/pages/stubs/ModuleStub.tsx`, and proves the
stated properties of its priority ordering, cooldown queue and statistics
accounting.

Modelling conventions:
* JavaScript numbers holding counts and indices are modelled as `Nat`
  (they are only ever incremented from 0), comparator return values as `Int`.
* A `Record<number, T>` is modelled as the partial map `Nat → Option T`
  (`undefined` lookup ↦ `none`); the `?? {correct:0,wrong:0}` defaulting of the
  source is a separate explicit function.
* `Array.prototype.sort(cmp)` is modelled by `List.insertionSort` over the
  comparator's order.  Every comparator in the source ends with `return a - b`
  on distinct array indices, so it describes a strict total order; the sorted
  result is therefore the unique sorted permutation of the input and does not
  depend on the sorting algorithm (this is proved, not assumed: we establish
  both `Perm` and strict sortedness below).
* The phase-2 comparator compares IEEE doubles `correct / Math.max(1, attempts)`.
  We model the comparison exactly over ℚ via cross-multiplication, which has
  the same sign as the floating-point difference for all realistically bounded
  counts (exact whenever products stay below 2^53).
-/

set_option linter.unnecessarySeqFocus false

namespace AmitieFrancais

/-- Per-item, per-direction tally (`type Stat = { correct: number; wrong: number }`
in every drill module). -/
structure Stat where
  correct : Nat
  wrong : Nat
deriving DecidableEq, Repr

/-- Embeds `attempts = correct + wrong` (the modules' local helper
`const attempts = (s) => s.correct + s.wrong`). -/
def attempts (s : Stat) : Nat := s.correct + s.wrong

/-- A drillable item.  The scheduler only ever reads `.id`, so the display
faces (`front`/`back`, `ja`/`fr`, …) are omitted from the embedding. -/
structure Pair where
  id : Nat
deriving DecidableEq, Repr

/-- Embeds `pairs[i].id` for an index produced from `pairs.map((_, i) => i)`;
in the source this access is always in bounds, out-of-bounds reads default. -/
def idAt (pairs : List Pair) (i : Nat) : Nat := (pairs.getD i ⟨0⟩).id

/-- Drill direction of `NewsVocab.tsx` (`type DrillDir = "JA2FR" | "FR2JA"`). -/
inductive DrillDir where
  | JA2FR
  | FR2JA
deriving DecidableEq, Repr

/-- Per-item statistics record of `NewsVocab.tsx`
(`type DirStat = { JA2FR: Stat; FR2JA: Stat }`). -/
structure DirStat where
  ja2fr : Stat
  fr2ja : Stat
deriving DecidableEq, Repr

/-- Field access `dirStat[dir]`. -/
def dirGet (d : DirStat) : DrillDir → Stat
  | .JA2FR => d.ja2fr
  | .FR2JA => d.fr2ja

/-- Functional record update `{ ...cur, [dir]: s }`. -/
def dirUpdate (d : DirStat) : DrillDir → Stat → DirStat
  | .JA2FR, s => { d with ja2fr := s }
  | .FR2JA, s => { d with fr2ja := s }

/-- Embeds `{ JA2FR: { correct: 0, wrong: 0 }, FR2JA: { correct: 0, wrong: 0 } }`. -/
def zeroDirStat : DirStat := ⟨⟨0, 0⟩, ⟨0, 0⟩⟩

/-- The `stats` table of `NewsVocab.tsx` (`Record<number, DirStat>`). -/
def NVStats : Type := Nat → Option DirStat

/-- The `stats` table of `Nominalisation.tsx` / `Temps.tsx`
(`Record<number, Stat>`). -/
def NomStats : Type := Nat → Option Stat

/-- Embeds `NewsVocab.tsx` line 570: `stats[id]?.[dir] ?? { correct: 0, wrong: 0 }`. -/
def statForNV (stats : NVStats) (dir : DrillDir) (id : Nat) : Stat :=
  match stats id with
  | some ds => dirGet ds dir
  | none => ⟨0, 0⟩

/-- Embeds `Nominalisation.tsx` line 290: `stats[pairs[a].id] ?? { correct: 0, wrong: 0 }`. -/
def statForNom (stats : NomStats) (id : Nat) : Stat :=
  (stats id).getD ⟨0, 0⟩

/-- Embeds `pairs.every((p) => (stats[p.id]?.[dir]?.correct ?? 0) >= 1)`, the phase
selector of `sortedIndices`, abstracted over the module's defaulted stat
lookup. -/
def allHaveAtLeastOneCorrect (pairs : List Pair) (statFor : Nat → Stat) : Bool :=
  pairs.all (fun p => decide (1 ≤ (statFor p.id).correct))

/-- The phase-1 comparator of `sortedIndices`
(`NewsVocab.tsx` lines 580–598, identical in the other modules):
unseen first, then zero-correct, then fewer attempts, then more wrong,
then original index. -/
def phase1Cmp (pairs : List Pair) (statFor : Nat → Stat) (a b : Nat) : Int :=
  let sa := statFor (idAt pairs a)
  let sb := statFor (idAt pairs b)
  let aAttempts := attempts sa
  let bAttempts := attempts sb
  let aUnseen := aAttempts == 0
  let bUnseen := bAttempts == 0
  if aUnseen != bUnseen then (if aUnseen then -1 else 1)
  else
    let aZeroCorrect := sa.correct == 0
    let bZeroCorrect := sb.correct == 0
    if aZeroCorrect != bZeroCorrect then (if aZeroCorrect then -1 else 1)
    else if aAttempts != bAttempts then (aAttempts : Int) - (bAttempts : Int)
    else if sa.wrong != sb.wrong then (sb.wrong : Int) - (sa.wrong : Int)
    else (a : Int) - (b : Int)

/-- The phase-2 comparator of `sortedIndices`
(`NewsVocab.tsx` lines 600–613): accuracy ascending, attempts ascending, index.
`accA = sa.correct / Math.max(1, sa.correct + sa.wrong)` (a float) is compared
via the sign-identical cross-multiplied integers
`sa.correct * max 1 (attempts sb)` vs `sb.correct * max 1 (attempts sa)`. -/
def phase2Cmp (pairs : List Pair) (statFor : Nat → Stat) (a b : Nat) : Int :=
  let sa := statFor (idAt pairs a)
  let sb := statFor (idAt pairs b)
  let accANum := sa.correct * max 1 (sb.correct + sb.wrong)
  let accBNum := sb.correct * max 1 (sa.correct + sa.wrong)
  if accANum != accBNum then (accANum : Int) - (accBNum : Int)
  else
    let aAttempts := sa.correct + sa.wrong
    let bAttempts := sb.correct + sb.wrong
    if aAttempts != bAttempts then (aAttempts : Int) - (bAttempts : Int)
    else (a : Int) - (b : Int)

/-- Embeds `sortedIndices` (`NewsVocab.tsx` lines 568–614, `Nominalisation.tsx`
lines 278–323, `Temps.tsx`, `ModuleStub.tsx`): sort the index list
`pairs.map((_, i) => i)` with the phase-1 comparator unless every item already
has at least one correct answer, in which case use the phase-2 comparator. -/
def sortedIndices (pairs : List Pair) (statFor : Nat → Stat) : List Nat :=
  let indices := List.range pairs.length
  if !(allHaveAtLeastOneCorrect pairs statFor) then
    indices.insertionSort (fun a b => phase1Cmp pairs statFor a b ≤ 0)
  else
    indices.insertionSort (fun a b => phase2Cmp pairs statFor a b ≤ 0)

/-- The cooldown capacity, `const COOLDOWN_N = 1` in every module. -/
def COOLDOWN_N : Nat := 1

/-- The `while (arr.length > cap) arr.shift();` loop of `pushRecent`:
drop elements from the front until the length is at most `cap`. -/
def shiftWhileOver (cap : Nat) : List Nat → List Nat
  | [] => []
  | a :: rest => if cap < (a :: rest).length then shiftWhileOver cap rest else a :: rest

/-- Embeds `pushRecent` (`NewsVocab.tsx` lines 287–294, `Temps.tsx` lines 134–141):
remove an existing occurrence of `id` (`indexOf` + `splice`), append `id`
(`push`), then shift from the front while over capacity.  The source's
early return on `id == null` is handled at the call sites below. -/
def pushRecent (recent : List Nat) (id : Nat) (cap : Nat) : List Nat :=
  shiftWhileOver cap (recent.erase id ++ [id])

/-- The per-module drill session state touched by the scheduler:
`pairs`, `stats` (table type `σ` varies by module), `idx`, `revealed`,
`recentRef.current`. -/
structure DrillState (σ : Type) where
  pairs : List Pair
  stats : σ
  idx : Nat
  revealed : Bool
  recent : List Nat

/-- The candidate filter used by `goNextPrioritized`
(`return i !== idx && id != null && !recentIds.has(id)` where
`id = pairs[i]?.id` and `recentIds` is a `Set` of `blocked`). -/
def candOK (pairs : List Pair) (idxCur : Nat) (blocked : List Nat) (i : Nat) : Bool :=
  match pairs[i]? with
  | some p => i != idxCur && !(blocked.contains p.id)
  | none => false

/-- The cooldown-relaxation loop of `goNextPrioritized`
(`NewsVocab.tsx` lines 633–643): repeatedly `shift()` the oldest entry off a
copy of `recent` and re-filter `order` against the remainder, until a
candidate appears or the copy is exhausted. -/
def relaxLoop (pairs : List Pair) (idxCur : Nat) (order : List Nat) :
    List Nat → Option Nat
  | [] => none
  | _ :: rest =>
    match order.filter (candOK pairs idxCur rest) with
    | c :: _ => some c
    | [] => relaxLoop pairs idxCur order rest

/-- Embeds `goNextPrioritized` (`NewsVocab.tsx` lines 617–651, `Temps.tsx` lines
314–347, identical in `Nominalisation.tsx` and `ModuleStub.tsx`): return
unchanged on an empty list; otherwise pick the first priority-ordered index
that is neither current nor on cooldown, relaxing the cooldown from the
oldest entry when every candidate is blocked, with final fallback
`order.find((i) => i !== idx) ?? idx`; then push the current card's id onto
`recent` and reset `revealed`.  `statFor` is the module's defaulted stat
lookup (closed over `dir` in `NewsVocab.tsx`). -/
def goNextPrioritized {σ : Type} (statFor : σ → Nat → Stat) (st : DrillState σ) :
    DrillState σ :=
  if st.pairs.length = 0 then st
  else
    let order := sortedIndices st.pairs (statFor st.stats)
    let baseCandidates := order.filter (candOK st.pairs st.idx st.recent)
    let nextIdx : Nat :=
      match baseCandidates with
      | c :: _ => c
      | [] =>
        match relaxLoop st.pairs st.idx order st.recent with
        | some c => c
        | none => (order.find? (fun i => i != st.idx)).getD st.idx
    let currentId : Option Nat := (st.pairs[st.idx]?).map (·.id)
    let recent1 :=
      match currentId with
      | some cid => pushRecent st.recent cid COOLDOWN_N
      | none => st.recent
    { st with idx := nextIdx, revealed := false, recent := recent1 }

/-- Embeds `onNext` of `NewsVocab.tsx` (lines 658–666) and `Temps.tsx`: below the
last index push the current id onto `recent`, increment `idx` and hide the
answer; at the last index call `goNextPrioritized`. -/
def onNext {σ : Type} (statFor : σ → Nat → Stat) (st : DrillState σ) :
    DrillState σ :=
  if st.idx < st.pairs.length - 1 then
    { st with
      recent :=
        match (st.pairs[st.idx]?).map (·.id) with
        | some cid => pushRecent st.recent cid COOLDOWN_N
        | none => st.recent,
      idx := st.idx + 1,
      revealed := false }
  else goNextPrioritized statFor st

/-- Embeds `onManualNext` of `Nominalisation.tsx` (lines 368–376) and
`ModuleStub.tsx` (lines 536–544): push the current id onto `recent`, then
`next = prev + 1; next >= pairs.length ? 0 : next`, and hide the answer. -/
def onManualNext {σ : Type} (st : DrillState σ) : DrillState σ :=
  if st.pairs.length = 0 then st
  else
    { st with
      recent :=
        match (st.pairs[st.idx]?).map (·.id) with
        | some cid => pushRecent st.recent cid COOLDOWN_N
        | none => st.recent,
      idx := if st.pairs.length ≤ st.idx + 1 then 0 else st.idx + 1,
      revealed := false }

/-- Embeds `pickFirstIndexByPriority` (`Nominalisation.tsx` lines 665–707,
`Temps.tsx` lines 696–738): its body is a verbatim copy of the two-phase
sort of `sortedIndices` over the non-directional stat lookup, returning
`indices[0] ?? 0`. -/
def pickFirstIndexByPriority (pairs : List Pair) (stats : NomStats) : Nat :=
  (sortedIndices pairs (statForNom stats)).headD 0

/-- The progress-restore decision of `NewsVocab.tsx` (lines 545–549):
`const i = data?.findIndex((x) => x.id === prog?.last_item_id) ?? -1;
if (i >= 0) setIdx(i); else setIdx(0);` — on a missing or unmatched
last-position id the index falls back to `0`, not to the priority head. -/
def newsVocabRestoreIdx (pairs : List Pair) (lastItemId : Option Nat) : Nat :=
  match lastItemId with
  | some pid => (pairs.findIdx? (fun x => x.id == pid)).getD 0
  | none => 0

/-- The stats update of `mark` in `NewsVocab.tsx` (lines 672–683):
`const cur = prev[card.id] ?? zero; const updated = kind === "correct" ?
{correct: cur[dir].correct + 1, wrong: cur[dir].wrong} : …;
return { ...prev, [card.id]: { ...cur, [dir]: updated } };`. -/
def mark (prev : NVStats) (cardId : Nat) (dir : DrillDir) (isCorrect : Bool) :
    NVStats :=
  fun i =>
    if i = cardId then
      let cur := (prev cardId).getD zeroDirStat
      let curDir := dirGet cur dir
      let updated : Stat :=
        if isCorrect then ⟨curDir.correct + 1, curDir.wrong⟩
        else ⟨curDir.correct, curDir.wrong + 1⟩
      some (dirUpdate cur dir updated)
    else prev i

/-- A sequence of `mark` calls, applied oldest first. -/
def applyMarks (S : NVStats) : List (Nat × DrillDir × Bool) → NVStats
  | [] => S
  | (cardId, dir, isCorrect) :: ops => applyMarks (mark S cardId dir isCorrect) ops

/-! ### The spec's description of the two priority orders

The following two relations restate the spec's composite sort keys in
plain mathematical terms; the refinement theorems below connect them to the
comparator-based `sortedIndices` translated from the source. -/

/-- The spec's Phase-1 composite key, as a strict order on item indices:
unseen (`attempts = 0`) before seen, then zero-correct before has-correct,
then attempts ascending, then wrong descending, then original index
ascending. -/
def phase1Before (pairs : List Pair) (statFor : Nat → Stat) (a b : Nat) : Prop :=
  let sa := statFor (idAt pairs a)
  let sb := statFor (idAt pairs b)
  (attempts sa = 0 ∧ attempts sb ≠ 0) ∨
    ((attempts sa = 0 ↔ attempts sb = 0) ∧
      ((sa.correct = 0 ∧ sb.correct ≠ 0) ∨
        ((sa.correct = 0 ↔ sb.correct = 0) ∧
          (attempts sa < attempts sb ∨
            (attempts sa = attempts sb ∧
              (sb.wrong < sa.wrong ∨ (sa.wrong = sb.wrong ∧ a < b)))))))

/-- The spec's accuracy, `accuracy = correct / max(1, correct + wrong)`,
as an exact rational. -/
def accuracy (s : Stat) : ℚ := (s.correct : ℚ) / ((max 1 (attempts s) : Nat) : ℚ)

/-- The spec's Phase-2 composite key, as a strict order on item indices:
accuracy ascending, then attempts ascending, then original index ascending. -/
def phase2Before (pairs : List Pair) (statFor : Nat → Stat) (a b : Nat) : Prop :=
  let sa := statFor (idAt pairs a)
  let sb := statFor (idAt pairs b)
  accuracy sa < accuracy sb ∨
    (accuracy sa = accuracy sb ∧
      (attempts sa < attempts sb ∨ (attempts sa = attempts sb ∧ a < b)))

/-! ### Comparator bridge lemmas -/

theorem phase1Cmp_neg_iff (pairs : List Pair) (statFor : Nat → Stat) (a b : Nat) :
    phase1Cmp pairs statFor a b < 0 ↔ phase1Before pairs statFor a b := by
  simp only [phase1Cmp, phase1Before, attempts, bne_iff_ne, ne_eq, beq_iff_eq]
  split_ifs <;> simp_all <;> omega

theorem phase1Cmp_eq_zero_iff (pairs : List Pair) (statFor : Nat → Stat) (a b : Nat) :
    phase1Cmp pairs statFor a b = 0 ↔ a = b := by
  constructor
  · simp only [phase1Cmp, attempts, bne_iff_ne, ne_eq, beq_iff_eq]
    split_ifs <;> simp_all <;> omega
  · rintro rfl
    simp only [phase1Cmp, attempts, bne_iff_ne, ne_eq, beq_iff_eq]
    split_ifs <;> simp_all

theorem phase1Before_trans (pairs : List Pair) (statFor : Nat → Stat)
    (a b c : Nat) (h1 : phase1Before pairs statFor a b)
    (h2 : phase1Before pairs statFor b c) : phase1Before pairs statFor a c := by
  simp only [phase1Before, attempts] at h1 h2 ⊢
  omega

theorem phase1Before_total (pairs : List Pair) (statFor : Nat → Stat)
    (a b : Nat) (h : a ≠ b) :
    phase1Before pairs statFor a b ∨ phase1Before pairs statFor b a := by
  simp only [phase1Before, attempts]
  omega

theorem accuracy_lt_iff (sa sb : Stat) :
    accuracy sa < accuracy sb ↔
      sa.correct * max 1 (attempts sb) < sb.correct * max 1 (attempts sa) := by
  have ha : (0 : ℚ) < ((max 1 (attempts sa) : Nat) : ℚ) := by
    exact_mod_cast Nat.lt_of_lt_of_le Nat.zero_lt_one (le_max_left _ _)
  have hb : (0 : ℚ) < ((max 1 (attempts sb) : Nat) : ℚ) := by
    exact_mod_cast Nat.lt_of_lt_of_le Nat.zero_lt_one (le_max_left _ _)
  unfold accuracy
  rw [div_lt_div_iff₀ ha hb]
  exact_mod_cast Iff.rfl

theorem accuracy_eq_iff (sa sb : Stat) :
    accuracy sa = accuracy sb ↔
      sa.correct * max 1 (attempts sb) = sb.correct * max 1 (attempts sa) := by
  have ha : ((max 1 (attempts sa) : Nat) : ℚ) ≠ 0 :=
    Nat.cast_ne_zero.mpr (by omega)
  have hb : ((max 1 (attempts sb) : Nat) : ℚ) ≠ 0 :=
    Nat.cast_ne_zero.mpr (by omega)
  unfold accuracy
  rw [div_eq_div_iff ha hb]
  exact_mod_cast Iff.rfl

theorem phase2Cmp_neg_iff (pairs : List Pair) (statFor : Nat → Stat) (a b : Nat) :
    phase2Cmp pairs statFor a b < 0 ↔ phase2Before pairs statFor a b := by
  have hlt := accuracy_lt_iff (statFor (idAt pairs a)) (statFor (idAt pairs b))
  have heq := accuracy_eq_iff (statFor (idAt pairs a)) (statFor (idAt pairs b))
  simp only [phase2Cmp, phase2Before, attempts, bne_iff_ne, ne_eq, beq_iff_eq] at *
  rw [hlt, heq]
  split_ifs <;> omega

theorem phase2Cmp_eq_zero_iff (pairs : List Pair) (statFor : Nat → Stat) (a b : Nat) :
    phase2Cmp pairs statFor a b = 0 ↔ a = b := by
  constructor
  · simp only [phase2Cmp, attempts, bne_iff_ne, ne_eq, beq_iff_eq]
    split_ifs <;> omega
  · rintro rfl
    simp only [phase2Cmp, attempts, bne_iff_ne, ne_eq, beq_iff_eq]
    split_ifs <;> simp_all

theorem phase2Before_trans (pairs : List Pair) (statFor : Nat → Stat)
    (a b c : Nat) (h1 : phase2Before pairs statFor a b)
    (h2 : phase2Before pairs statFor b c) : phase2Before pairs statFor a c := by
  simp only [phase2Before] at h1 h2 ⊢
  rcases h1 with h1 | ⟨e1, h1⟩ <;> rcases h2 with h2 | ⟨e2, h2⟩
  · exact Or.inl (h1.trans h2)
  · exact Or.inl (e2 ▸ h1)
  · exact Or.inl (e1 ▸ h2)
  · exact Or.inr ⟨e1.trans e2, by omega⟩

theorem phase2Before_total (pairs : List Pair) (statFor : Nat → Stat)
    (a b : Nat) (h : a ≠ b) :
    phase2Before pairs statFor a b ∨ phase2Before pairs statFor b a := by
  simp only [phase2Before]
  rcases lt_trichotomy (accuracy (statFor (idAt pairs a)))
      (accuracy (statFor (idAt pairs b))) with hl | he | hg
  · exact Or.inl (Or.inl hl)
  · rcases Nat.lt_trichotomy a b with hab | hab | hab
    · rcases Nat.lt_trichotomy (attempts (statFor (idAt pairs a)))
          (attempts (statFor (idAt pairs b))) with h2 | h2 | h2
      · exact Or.inl (Or.inr ⟨he, Or.inl h2⟩)
      · exact Or.inl (Or.inr ⟨he, Or.inr ⟨h2, hab⟩⟩)
      · exact Or.inr (Or.inr ⟨he.symm, Or.inl h2⟩)
    · exact absurd hab h
    · rcases Nat.lt_trichotomy (attempts (statFor (idAt pairs a)))
          (attempts (statFor (idAt pairs b))) with h2 | h2 | h2
      · exact Or.inl (Or.inr ⟨he, Or.inl h2⟩)
      · exact Or.inr (Or.inr ⟨he.symm, Or.inr ⟨h2.symm, hab⟩⟩)
      · exact Or.inr (Or.inr ⟨he.symm, Or.inl h2⟩)
  · exact Or.inr (Or.inl hg)

/-! ### From a sign-correct comparator to a sorted permutation -/

theorem cmpLe_trans {cmp : Nat → Nat → Int} {before : Nat → Nat → Prop}
    (hneg : ∀ a b, cmp a b < 0 ↔ before a b)
    (hzero : ∀ a b, cmp a b = 0 ↔ a = b)
    (htrans : ∀ a b c, before a b → before b c → before a c)
    {a b c : Nat} (h1 : cmp a b ≤ 0) (h2 : cmp b c ≤ 0) : cmp a c ≤ 0 := by
  rcases lt_or_eq_of_le h1 with h1 | h1
  · rcases lt_or_eq_of_le h2 with h2 | h2
    · exact le_of_lt ((hneg a c).mpr (htrans a b c ((hneg a b).mp h1) ((hneg b c).mp h2)))
    · have : b = c := (hzero b c).mp h2
      exact le_of_lt (this ▸ h1)
  · have : a = b := (hzero a b).mp h1
    exact this ▸ h2

theorem cmpLe_total {cmp : Nat → Nat → Int} {before : Nat → Nat → Prop}
    (hneg : ∀ a b, cmp a b < 0 ↔ before a b)
    (hzero : ∀ a b, cmp a b = 0 ↔ a = b)
    (htotal : ∀ a b, a ≠ b → before a b ∨ before b a)
    (a b : Nat) : cmp a b ≤ 0 ∨ cmp b a ≤ 0 := by
  by_cases h : a = b
  · exact Or.inl (le_of_eq ((hzero a b).mpr h))
  · rcases htotal a b h with hb | hb
    · exact Or.inl (le_of_lt ((hneg a b).mpr hb))
    · exact Or.inr (le_of_lt ((hneg b a).mpr hb))

theorem sortedIndices_eq_phase1 (pairs : List Pair) (statFor : Nat → Stat)
    (h : allHaveAtLeastOneCorrect pairs statFor = false) :
    sortedIndices pairs statFor =
      (List.range pairs.length).insertionSort
        (fun a b => phase1Cmp pairs statFor a b ≤ 0) := by
  simp [sortedIndices, h]

theorem sortedIndices_eq_phase2 (pairs : List Pair) (statFor : Nat → Stat)
    (h : allHaveAtLeastOneCorrect pairs statFor = true) :
    sortedIndices pairs statFor =
      (List.range pairs.length).insertionSort
        (fun a b => phase2Cmp pairs statFor a b ≤ 0) := by
  simp [sortedIndices, h]

theorem sortedIndices_perm (pairs : List Pair) (statFor : Nat → Stat) :
    (sortedIndices pairs statFor).Perm (List.range pairs.length) := by
  unfold sortedIndices
  split <;> exact List.perm_insertionSort _ _

theorem sortedIndices_nodup (pairs : List Pair) (statFor : Nat → Stat) :
    (sortedIndices pairs statFor).Nodup :=
  (sortedIndices_perm pairs statFor).nodup_iff.mpr (List.nodup_range _)

theorem sortedIndices_pairwise_phase1 (pairs : List Pair) (statFor : Nat → Stat)
    (h : allHaveAtLeastOneCorrect pairs statFor = false) :
    (sortedIndices pairs statFor).Pairwise (phase1Before pairs statFor) := by
  have hnd := sortedIndices_nodup pairs statFor
  rw [sortedIndices_eq_phase1 pairs statFor h] at hnd ⊢
  letI : IsTrans Nat (fun a b => phase1Cmp pairs statFor a b ≤ 0) :=
    ⟨fun a b c => cmpLe_trans (phase1Cmp_neg_iff pairs statFor)
      (phase1Cmp_eq_zero_iff pairs statFor) (phase1Before_trans pairs statFor)⟩
  letI : IsTotal Nat (fun a b => phase1Cmp pairs statFor a b ≤ 0) :=
    ⟨cmpLe_total (phase1Cmp_neg_iff pairs statFor)
      (phase1Cmp_eq_zero_iff pairs statFor) (phase1Before_total pairs statFor)⟩
  have hs := List.sorted_insertionSort
    (fun a b => phase1Cmp pairs statFor a b ≤ 0) (List.range pairs.length)
  exact (hs.and hnd).imp fun {a b} hab =>
    (phase1Cmp_neg_iff pairs statFor a b).mp
      (lt_of_le_of_ne hab.1 fun hz =>
        hab.2 ((phase1Cmp_eq_zero_iff pairs statFor a b).mp hz))

theorem sortedIndices_pairwise_phase2 (pairs : List Pair) (statFor : Nat → Stat)
    (h : allHaveAtLeastOneCorrect pairs statFor = true) :
    (sortedIndices pairs statFor).Pairwise (phase2Before pairs statFor) := by
  have hnd := sortedIndices_nodup pairs statFor
  rw [sortedIndices_eq_phase2 pairs statFor h] at hnd ⊢
  letI : IsTrans Nat (fun a b => phase2Cmp pairs statFor a b ≤ 0) :=
    ⟨fun a b c => cmpLe_trans (phase2Cmp_neg_iff pairs statFor)
      (phase2Cmp_eq_zero_iff pairs statFor) (phase2Before_trans pairs statFor)⟩
  letI : IsTotal Nat (fun a b => phase2Cmp pairs statFor a b ≤ 0) :=
    ⟨cmpLe_total (phase2Cmp_neg_iff pairs statFor)
      (phase2Cmp_eq_zero_iff pairs statFor) (phase2Before_total pairs statFor)⟩
  have hs := List.sorted_insertionSort
    (fun a b => phase2Cmp pairs statFor a b ≤ 0) (List.range pairs.length)
  exact (hs.and hnd).imp fun {a b} hab =>
    (phase2Cmp_neg_iff pairs statFor a b).mp
      (lt_of_le_of_ne hab.1 fun hz =>
        hab.2 ((phase2Cmp_eq_zero_iff pairs statFor a b).mp hz))

/-! ### Candidate selection facts -/

theorem candOK_ne (pairs : List Pair) (idxCur : Nat) (blocked : List Nat)
    (i : Nat) (h : candOK pairs idxCur blocked i = true) : i ≠ idxCur := by
  unfold candOK at h
  split at h
  · simp only [Bool.and_eq_true, bne_iff_ne, ne_eq] at h
    exact h.1
  · exact absurd h (by simp)

theorem relaxLoop_some (pairs : List Pair) (idxCur : Nat) (order : List Nat) :
    ∀ (l : List Nat) (c : Nat), relaxLoop pairs idxCur order l = some c →
      c ∈ order ∧ c ≠ idxCur := by
  intro l
  induction l with
  | nil => intro c h; exact absurd h (by simp [relaxLoop])
  | cons x rest ih =>
    intro c h
    unfold relaxLoop at h
    rcases hfil : order.filter (candOK pairs idxCur rest) with _ | ⟨c1, tail⟩
    · simp only [hfil] at h
      exact ih c h
    · simp only [hfil, Option.some.injEq] at h
      subst h
      have hc : c1 ∈ order.filter (candOK pairs idxCur rest) := by
        rw [hfil]; exact List.mem_cons_self _ _
      have hm := List.mem_filter.mp hc
      exact ⟨hm.1, candOK_ne pairs idxCur rest c1 hm.2⟩

/-- The selected index of one `goNextPrioritized` call: either it comes from
the priority order and differs from the current index, or the fallback
returned the current index because every index in the order equals it. -/
theorem goNext_idx_cases {σ : Type} (statFor : σ → Nat → Stat)
    (st : DrillState σ) (h : st.pairs ≠ []) :
    ((goNextPrioritized statFor st).idx ∈
        sortedIndices st.pairs (statFor st.stats) ∧
      (goNextPrioritized statFor st).idx ≠ st.idx) ∨
    ((goNextPrioritized statFor st).idx = st.idx ∧
      ∀ i ∈ sortedIndices st.pairs (statFor st.stats), i = st.idx) := by
  have hlen : ¬ st.pairs.length = 0 := by
    simpa [List.length_eq_zero] using h
  unfold goNextPrioritized
  rw [if_neg hlen]
  simp only
  set order := sortedIndices st.pairs (statFor st.stats) with horder
  rcases hbase : order.filter (candOK st.pairs st.idx st.recent) with _ | ⟨c, rest⟩
  · rcases hrelax : relaxLoop st.pairs st.idx order st.recent with _ | c
    · rcases hfind : order.find? (fun i => i != st.idx) with _ | c
      · refine Or.inr ⟨rfl, fun i hi => ?_⟩
        have := List.find?_eq_none.mp hfind i hi
        simpa using this
      · have hmem := List.mem_of_find?_eq_some hfind
        have hne := List.find?_some hfind
        simp only [bne_iff_ne, ne_eq, decide_eq_true_eq] at hne
        exact Or.inl ⟨hmem, hne⟩
    · have := relaxLoop_some st.pairs st.idx order st.recent c hrelax
      exact Or.inl this
  · have hc : c ∈ order.filter (candOK st.pairs st.idx st.recent) := by
      rw [hbase]; exact List.mem_cons_self _ _
    have := List.mem_filter.mp hc
    exact Or.inl ⟨this.1, candOK_ne st.pairs st.idx st.recent c this.2⟩

/-! ### Concrete scenario data (spec §8) -/

/-- Items with ids 1, 2, 3 (Scenarios B, C and E of the spec). -/
def scenarioPairs : List Pair := [⟨1⟩, ⟨2⟩, ⟨3⟩]

/-- Scenario B stats: id 1 ↦ {correct 0, wrong 3}, id 2 ↦ {correct 1, wrong 0},
id 3 ↦ {correct 1, wrong 1}, tallied on the JA2FR direction. -/
def scenarioBStats : NVStats := fun i =>
  if i = 1 then some ⟨⟨0, 3⟩, ⟨0, 0⟩⟩
  else if i = 2 then some ⟨⟨1, 0⟩, ⟨0, 0⟩⟩
  else if i = 3 then some ⟨⟨1, 1⟩, ⟨0, 0⟩⟩
  else none

/-- Scenario C stats: id 1 ↦ {correct 1, wrong 3} (accuracy 1/4),
id 2 ↦ {correct 3, wrong 0} (accuracy 1), id 3 ↦ {correct 1, wrong 1}
(accuracy 1/2). -/
def scenarioCStats : NVStats := fun i =>
  if i = 1 then some ⟨⟨1, 3⟩, ⟨0, 0⟩⟩
  else if i = 2 then some ⟨⟨3, 0⟩, ⟨0, 0⟩⟩
  else if i = 3 then some ⟨⟨1, 1⟩, ⟨0, 0⟩⟩
  else none

/-! ### Claim theorems -/

/-- C1: in phase 1 — whenever at least one item has `correct = 0` for the
active direction — `sortedIndices` returns the permutation of the item
indices that is strictly ascending in the composite key: unseen before seen,
then zero-correct before has-correct, then attempts ascending, then wrong
descending, then original index ascending (`phase1Before`).  The Scenario B
instance (item id 1 first) is checked in the witness. -/
theorem sortedIndices_phase1_spec (pairs : List Pair) (statFor : Nat → Stat)
    (h : ∃ p ∈ pairs, (statFor p.id).correct = 0) :
    (sortedIndices pairs statFor).Perm (List.range pairs.length) ∧
    (sortedIndices pairs statFor).Pairwise (phase1Before pairs statFor) := by
  have hall : allHaveAtLeastOneCorrect pairs statFor = false := by
    rcases h with ⟨p, hp, hc⟩
    unfold allHaveAtLeastOneCorrect
    rw [List.all_eq_false]
    exact ⟨p, hp, by simp [hc]⟩
  exact ⟨sortedIndices_perm pairs statFor,
    sortedIndices_pairwise_phase1 pairs statFor hall⟩

/-- Witness for C1 at Scenario B: item 1 has `correct = 0`, the order is
`[0, 1, 2]`, and index 0 — which sorts first — carries the item with id 1. -/
theorem sortedIndices_phase1_spec_witness :
    (sortedIndices scenarioPairs (statForNV scenarioBStats .JA2FR)).Perm
        (List.range scenarioPairs.length) ∧
    (sortedIndices scenarioPairs (statForNV scenarioBStats .JA2FR)).Pairwise
        (phase1Before scenarioPairs (statForNV scenarioBStats .JA2FR)) ∧
    sortedIndices scenarioPairs (statForNV scenarioBStats .JA2FR) = [0, 1, 2] ∧
    idAt scenarioPairs 0 = 1 := by
  have h := sortedIndices_phase1_spec scenarioPairs
    (statForNV scenarioBStats .JA2FR) ⟨⟨1⟩, by decide, by decide⟩
  exact ⟨h.1, h.2, by decide, by decide⟩

/-- C2: in phase 2 — whenever every item has `correct ≥ 1` for the active
direction — `sortedIndices` returns the permutation of the item indices that
is strictly ascending in accuracy `correct / max 1 (correct + wrong)`, then
attempts, then original index (`phase2Before`).  The Scenario C instance
(order id1, id3, id2, i.e. `[0, 2, 1]`) is checked in the witness. -/
theorem sortedIndices_phase2_spec (pairs : List Pair) (statFor : Nat → Stat)
    (h : ∀ p ∈ pairs, 1 ≤ (statFor p.id).correct) :
    (sortedIndices pairs statFor).Perm (List.range pairs.length) ∧
    (sortedIndices pairs statFor).Pairwise (phase2Before pairs statFor) := by
  have hall : allHaveAtLeastOneCorrect pairs statFor = true := by
    unfold allHaveAtLeastOneCorrect
    rw [List.all_eq_true]
    intro p hp
    simpa using h p hp
  exact ⟨sortedIndices_perm pairs statFor,
    sortedIndices_pairwise_phase2 pairs statFor hall⟩

/-- Witness for C2 at Scenario C: every item has a correct answer and the
order is `[0, 2, 1]`, i.e. id 1 (accuracy 1/4), id 3 (1/2), id 2 (1). -/
theorem sortedIndices_phase2_spec_witness :
    (sortedIndices scenarioPairs (statForNV scenarioCStats .JA2FR)).Perm
        (List.range scenarioPairs.length) ∧
    (sortedIndices scenarioPairs (statForNV scenarioCStats .JA2FR)).Pairwise
        (phase2Before scenarioPairs (statForNV scenarioCStats .JA2FR)) ∧
    sortedIndices scenarioPairs (statForNV scenarioCStats .JA2FR) = [0, 2, 1] := by
  have h := sortedIndices_phase2_spec scenarioPairs
    (statForNV scenarioCStats .JA2FR) (by decide)
  exact ⟨h.1, h.2, by decide⟩

theorem goNext_pairs_stats {σ : Type} (statFor : σ → Nat → Stat)
    (st : DrillState σ) :
    (goNextPrioritized statFor st).pairs = st.pairs ∧
    (goNextPrioritized statFor st).stats = st.stats := by
  unfold goNextPrioritized
  split <;> exact ⟨rfl, rfl⟩

/-- C3: on a non-empty item list, for every stats table and recent queue,
`goNextPrioritized` selects an in-bounds index (and, being a total Lean
function, never throws); with at least 2 items the selection differs from
the current index, and with exactly 1 item it always selects that item's
index, 0. -/
theorem goNextPrioritized_safe {σ : Type} (statFor : σ → Nat → Stat)
    (st : DrillState σ) (h : st.pairs ≠ []) :
    (goNextPrioritized statFor st).idx < st.pairs.length ∧
    (2 ≤ st.pairs.length → (goNextPrioritized statFor st).idx ≠ st.idx) ∧
    (st.pairs.length = 1 → (goNextPrioritized statFor st).idx = 0) := by
  have hpos : 0 < st.pairs.length := List.length_pos.mpr h
  have hperm := sortedIndices_perm st.pairs (statFor st.stats)
  have hmem_iff : ∀ i, i ∈ sortedIndices st.pairs (statFor st.stats) ↔
      i < st.pairs.length := fun i => by
    rw [hperm.mem_iff, List.mem_range]
  rcases goNext_idx_cases statFor st h with ⟨hmem, hne⟩ | ⟨heq, hall⟩
  · have hlt := (hmem_iff _).mp hmem
    exact ⟨hlt, fun _ => hne, fun h1 => by omega⟩
  · have h0 : (0 : Nat) ∈ sortedIndices st.pairs (statFor st.stats) :=
      (hmem_iff 0).mpr hpos
    have hidx0 : st.idx = 0 := (hall 0 h0).symm
    refine ⟨by omega, fun h2 => ?_, fun _ => by omega⟩
    have h1 : (1 : Nat) ∈ sortedIndices st.pairs (statFor st.stats) :=
      (hmem_iff 1).mpr (by omega)
    have := hall 1 h1
    omega

/-- Witness for C3: a 2-item session (current index 0, the other item's id
on cooldown) and a 1-item session. -/
theorem goNextPrioritized_safe_witness :
    ((goNextPrioritized (statForNV · .JA2FR)
        { pairs := [⟨10⟩, ⟨20⟩], stats := fun _ => none, idx := 0,
          revealed := true, recent := [20] }).idx < 2 ∧
      (goNextPrioritized (statForNV · .JA2FR)
        { pairs := [⟨10⟩, ⟨20⟩], stats := fun _ => none, idx := 0,
          revealed := true, recent := [20] }).idx ≠ 0) ∧
    (goNextPrioritized (statForNV · .JA2FR)
        { pairs := [⟨10⟩], stats := fun _ => none, idx := 0,
          revealed := true, recent := [10] }).idx = 0 := by
  have h2 := goNextPrioritized_safe (statForNV · .JA2FR)
    { pairs := [⟨10⟩, ⟨20⟩], stats := fun _ => none, idx := 0,
      revealed := true, recent := [20] } (by decide)
  have h1 := goNextPrioritized_safe (statForNV · .JA2FR)
    { pairs := [⟨10⟩], stats := fun _ => none, idx := 0,
      revealed := true, recent := [10] } (by decide)
  exact ⟨⟨h2.1, h2.2.1 (by decide)⟩, h1.2.2 (by decide)⟩

theorem goNext_flip {σ : Type} (statFor : σ → Nat → Stat)
    (st : DrillState σ) (p0 p1 : Pair) (hp : st.pairs = [p0, p1])
    (hi : st.idx ≤ 1) : (goNextPrioritized statFor st).idx = 1 - st.idx := by
  have h : st.pairs ≠ [] := by rw [hp]; exact List.cons_ne_nil _ _
  have hperm := sortedIndices_perm st.pairs (statFor st.stats)
  have hmem_iff : ∀ i, i ∈ sortedIndices st.pairs (statFor st.stats) ↔
      i < st.pairs.length := fun i => by
    rw [hperm.mem_iff, List.mem_range]
  have hlen : st.pairs.length = 2 := by rw [hp]; rfl
  rcases goNext_idx_cases statFor st h with ⟨hmem, hne⟩ | ⟨heq, hall⟩
  · have hlt := (hmem_iff _).mp hmem
    omega
  · have h0 := hall 0 ((hmem_iff 0).mpr (by omega))
    have h1 := hall 1 ((hmem_iff 1).mpr (by omega))
    omega

/-- C6: on a working set of exactly two items with the cooldown capacity 1
of the source, successive `goNextPrioritized` calls alternate between the
two indices, for every stats table and every recent queue — in particular
when the only non-current item's id is in `recent` and the relaxation loop
must yield it.  The witness exercises exactly that relaxation case. -/
theorem goNext_two_item_alternation {σ : Type} (statFor : σ → Nat → Stat)
    (st : DrillState σ) (p0 p1 : Pair) (hp : st.pairs = [p0, p1])
    (hi : st.idx ≤ 1) :
    (goNextPrioritized statFor st).idx = 1 - st.idx ∧
    (goNextPrioritized statFor (goNextPrioritized statFor st)).idx = st.idx := by
  have h1 := goNext_flip statFor st p0 p1 hp hi
  have hp2 : (goNextPrioritized statFor st).pairs = [p0, p1] :=
    (goNext_pairs_stats statFor st).1.trans hp
  have h2 := goNext_flip statFor (goNextPrioritized statFor st) p0 p1 hp2
    (by omega)
  constructor
  · exact h1
  · omega

/-- Witness for C6: two items A (id 10, index 0) and B (id 20, index 1);
with B's id in `recent` (capacity 1) the call from index 0 still reaches
index 1 through the relaxation loop, and the next call returns to 0. -/
theorem goNext_two_item_alternation_witness :
    (goNextPrioritized (statForNV · .JA2FR)
        { pairs := [⟨10⟩, ⟨20⟩], stats := fun _ => none, idx := 0,
          revealed := true, recent := [20] }).idx = 1 ∧
    (goNextPrioritized (statForNV · .JA2FR)
      (goNextPrioritized (statForNV · .JA2FR)
        { pairs := [⟨10⟩, ⟨20⟩], stats := fun _ => none, idx := 0,
          revealed := true, recent := [20] })).idx = 0 := by
  have h := goNext_two_item_alternation (statForNV · .JA2FR)
    { pairs := [⟨10⟩, ⟨20⟩], stats := fun _ => none, idx := 0,
      revealed := true, recent := [20] } ⟨10⟩ ⟨20⟩ rfl (by decide)
  exact ⟨h.1, h.2⟩

/-- C10: `goNextPrioritized` only ever mutates the cooldown queue by pushing
the current card's id — the relaxation loop works on a copy — so on a
non-empty item list with an in-bounds current index the stored queue becomes
`pushRecent recent currentId COOLDOWN_N` no matter how many relaxation steps
ran, while `pairs` and `stats` are unchanged; on an empty list the whole
state is returned unchanged. -/
theorem goNext_frame {σ : Type} (statFor : σ → Nat → Stat)
    (st : DrillState σ) :
    (st.pairs = [] → goNextPrioritized statFor st = st) ∧
    (goNextPrioritized statFor st).pairs = st.pairs ∧
    (goNextPrioritized statFor st).stats = st.stats ∧
    (st.idx < st.pairs.length →
      (goNextPrioritized statFor st).recent =
        pushRecent st.recent (idAt st.pairs st.idx) COOLDOWN_N) := by
  refine ⟨fun hempty => ?_, (goNext_pairs_stats statFor st).1,
    (goNext_pairs_stats statFor st).2, fun hidx => ?_⟩
  · unfold goNextPrioritized
    rw [if_pos (by simp [hempty])]
  · have hget : st.pairs[st.idx]? = some st.pairs[st.idx] :=
      List.getElem?_eq_getElem hidx
    have hlen : ¬ st.pairs.length = 0 := by omega
    have hid : idAt st.pairs st.idx = st.pairs[st.idx].id := by
      unfold idAt
      rw [List.getD_eq_getElem?_getD, hget]
      rfl
    unfold goNextPrioritized
    rw [if_neg hlen]
    simp only [hget, hid]
    rfl

/-- Witness for C10: the empty-list early return, and the recent-queue
update on the 2-item relaxation state of the C6 witness. -/
theorem goNext_frame_witness :
    goNextPrioritized (statForNV · .JA2FR)
        { pairs := [], stats := fun _ => none, idx := 3, revealed := true,
          recent := [7] } =
      { pairs := [], stats := fun _ => none, idx := 3, revealed := true,
        recent := [7] } ∧
    (goNextPrioritized (statForNV · .JA2FR)
        { pairs := [⟨10⟩, ⟨20⟩], stats := fun _ => none, idx := 0,
          revealed := true, recent := [20] }).recent =
      pushRecent [20] 10 COOLDOWN_N := by
  constructor
  · exact (goNext_frame (statForNV · .JA2FR) _).1 rfl
  · exact (goNext_frame (statForNV · .JA2FR)
      { pairs := [⟨10⟩, ⟨20⟩], stats := fun _ => none, idx := 0,
        revealed := true, recent := [20] }).2.2.2 (by decide)

theorem shiftWhileOver_sublist (cap : Nat) :
    ∀ l : List Nat, (shiftWhileOver cap l).Sublist l
  | [] => by simp [shiftWhileOver]
  | a :: rest => by
    unfold shiftWhileOver
    split
    · exact (shiftWhileOver_sublist cap rest).trans (List.sublist_cons_self a rest)
    · exact List.Sublist.refl _

theorem shiftWhileOver_length_le (cap : Nat) :
    ∀ l : List Nat, (shiftWhileOver cap l).length ≤ cap
  | [] => by simp [shiftWhileOver]
  | a :: rest => by
    unfold shiftWhileOver
    split
    case _ h => exact shiftWhileOver_length_le cap rest
    case _ h => exact Nat.le_of_not_lt h

theorem shiftWhileOver_getLast (cap : Nat) (hcap : 1 ≤ cap) :
    ∀ l : List Nat, l ≠ [] → (shiftWhileOver cap l).getLast? = l.getLast?
  | [], h => absurd rfl h
  | a :: rest, _ => by
    unfold shiftWhileOver
    split
    case _ h =>
      have hr : rest ≠ [] := by
        intro he
        subst he
        simp only [List.length_cons, List.length_nil] at h
        omega
      rw [shiftWhileOver_getLast cap hcap rest hr]
      cases rest with
      | nil => exact absurd rfl hr
      | cons b t => exact List.getLast?_cons_cons.symm
    case _ h => rfl

/-- C7: `pushRecent` removes any existing occurrence of `itemId`, appends it
at the tail, and drops from the front until the length is at most the
capacity; hence for every duplicate-free queue and positive capacity (the
source always uses `COOLDOWN_N = 1`) the result is duplicate-free, ends with
`itemId`, and has length at most the capacity. -/
theorem pushRecent_spec (recent : List Nat) (id cap : Nat) (hcap : 1 ≤ cap)
    (hnd : recent.Nodup) :
    (pushRecent recent id cap).Nodup ∧
    (pushRecent recent id cap).getLast? = some id ∧
    (pushRecent recent id cap).length ≤ cap := by
  have hndarr : (recent.erase id ++ [id]).Nodup := by
    rw [List.nodup_append]
    refine ⟨hnd.erase id, List.nodup_singleton id, fun x hx hx1 => ?_⟩
    rw [List.mem_singleton] at hx1
    subst hx1
    exact hnd.not_mem_erase hx
  have harrne : recent.erase id ++ [id] ≠ [] := by simp
  refine ⟨List.Nodup.sublist (shiftWhileOver_sublist cap _) hndarr, ?_, ?_⟩
  · rw [pushRecent, shiftWhileOver_getLast cap hcap _ harrne,
      List.getLast?_concat]
  · exact shiftWhileOver_length_le cap _

/-- Witness for C7 with the source's capacity 1: pushing id 7 onto the
duplicate-free queue `[5]` yields `[7]`. -/
theorem pushRecent_spec_witness :
    (pushRecent [5] 7 COOLDOWN_N).Nodup ∧
    (pushRecent [5] 7 COOLDOWN_N).getLast? = some 7 ∧
    (pushRecent [5] 7 COOLDOWN_N).length ≤ COOLDOWN_N :=
  pushRecent_spec [5] 7 COOLDOWN_N (by decide) (by decide)

theorem dirGet_dirUpdate_same (d : DirStat) (dir : DrillDir) (s : Stat) :
    dirGet (dirUpdate d dir s) dir = s := by
  cases dir <;> rfl

theorem dirGet_dirUpdate_other (d : DirStat) (dir d2 : DrillDir) (s : Stat)
    (h : d2 ≠ dir) : dirGet (dirUpdate d dir s) d2 = dirGet d d2 := by
  cases dir <;> cases d2 <;> first | rfl | exact absurd rfl h

theorem statForNV_getD (S : NVStats) (dir : DrillDir) (i : Nat) :
    statForNV S dir i = dirGet ((S i).getD zeroDirStat) dir := by
  unfold statForNV
  cases S i with
  | none => cases dir <;> rfl
  | some ds => rfl

theorem statForNV_mark_same (S : NVStats) (c : Nat) (dir : DrillDir) (k : Bool) :
    statForNV (mark S c dir k) dir c =
      if k then ⟨(statForNV S dir c).correct + 1, (statForNV S dir c).wrong⟩
      else ⟨(statForNV S dir c).correct, (statForNV S dir c).wrong + 1⟩ := by
  rw [statForNV_getD, statForNV_getD]
  unfold mark
  rw [if_pos rfl]
  simp only [Option.getD_some]
  rw [dirGet_dirUpdate_same]

theorem mark_frame_id (S : NVStats) (c : Nat) (dir : DrillDir) (k : Bool) :
    ∀ i, i ≠ c → mark S c dir k i = S i := by
  intro i h
  unfold mark
  rw [if_neg h]

theorem statForNV_mark_other_dir (S : NVStats) (c : Nat) (dir : DrillDir)
    (k : Bool) (d : DrillDir) (h : d ≠ dir) :
    statForNV (mark S c dir k) d c = statForNV S d c := by
  rw [statForNV_getD, statForNV_getD]
  unfold mark
  rw [if_pos rfl]
  simp only [Option.getD_some]
  rw [dirGet_dirUpdate_other _ _ _ _ h]

theorem statForNV_mark_le (S : NVStats) (c : Nat) (dir : DrillDir) (k : Bool)
    (d : DrillDir) (i : Nat) :
    (statForNV S d i).correct ≤ (statForNV (mark S c dir k) d i).correct ∧
    (statForNV S d i).wrong ≤ (statForNV (mark S c dir k) d i).wrong := by
  by_cases hic : i = c
  · subst hic
    by_cases hd : d = dir
    · subst hd
      rw [statForNV_mark_same]
      cases k <;> simp
    · rw [statForNV_mark_other_dir _ _ _ _ _ hd]
      exact ⟨le_refl _, le_refl _⟩
  · have heq : statForNV (mark S c dir k) d i = statForNV S d i := by
      unfold statForNV
      rw [mark_frame_id S c dir k i hic]
    rw [heq]
    exact ⟨le_refl _, le_refl _⟩

theorem applyMarks_le (S : NVStats) (ops : List (Nat × DrillDir × Bool))
    (d : DrillDir) (i : Nat) :
    (statForNV S d i).correct ≤ (statForNV (applyMarks S ops) d i).correct ∧
    (statForNV S d i).wrong ≤ (statForNV (applyMarks S ops) d i).wrong := by
  induction ops generalizing S with
  | nil => exact ⟨le_refl _, le_refl _⟩
  | cons op rest ih =>
    obtain ⟨c, dir, k⟩ := op
    have h1 := statForNV_mark_le S c dir k d i
    have h2 := ih (mark S c dir k)
    exact ⟨h1.1.trans h2.1, h1.2.trans h2.2⟩

/-- C8: `mark` keeps `attempts = correct + wrong` at every key (attempts is
always computed as the sum), increments exactly one counter of exactly one
`(itemId, direction)` key by 1 — the updated key gets `+1` on the chosen
counter, every other item id keeps its raw entry, the other direction of the
same id is unchanged, and an absent entry is created (from the zero record)
— and across any sequence of mark calls both counters of every key are
monotonically non-decreasing. -/
theorem mark_accounting :
    (∀ s : Stat, attempts s = s.correct + s.wrong) ∧
    (∀ (S : NVStats) (cardId : Nat) (dir : DrillDir) (isCorrect : Bool),
      (statForNV (mark S cardId dir isCorrect) dir cardId).correct =
          (statForNV S dir cardId).correct + (if isCorrect then 1 else 0) ∧
      (statForNV (mark S cardId dir isCorrect) dir cardId).wrong =
          (statForNV S dir cardId).wrong + (if isCorrect then 0 else 1) ∧
      (mark S cardId dir isCorrect cardId).isSome = true ∧
      (∀ i, i ≠ cardId → mark S cardId dir isCorrect i = S i) ∧
      (∀ d, d ≠ dir →
        statForNV (mark S cardId dir isCorrect) d cardId =
          statForNV S d cardId)) ∧
    (∀ (S : NVStats) (ops : List (Nat × DrillDir × Bool)) (d : DrillDir)
        (i : Nat),
      (statForNV S d i).correct ≤ (statForNV (applyMarks S ops) d i).correct ∧
      (statForNV S d i).wrong ≤ (statForNV (applyMarks S ops) d i).wrong) := by
  refine ⟨fun s => rfl, fun S c dir k => ?_, applyMarks_le⟩
  refine ⟨?_, ?_, ?_, mark_frame_id S c dir k,
    fun d hd => statForNV_mark_other_dir S c dir k d hd⟩
  · rw [statForNV_mark_same]
    cases k <;> simp
  · rw [statForNV_mark_same]
    cases k <;> simp
  · unfold mark
    rw [if_pos rfl]
    rfl

/-- Witness for C8: marking id 5 correct on the empty table creates the
entry, bumps its JA2FR correct counter to 1, leaves id 7 and the FR2JA
direction untouched, and a two-mark sequence never decreases a counter. -/
theorem mark_accounting_witness :
    (statForNV (mark (fun _ => none) 5 .JA2FR true) .JA2FR 5).correct =
        (statForNV (fun _ => none) .JA2FR 5).correct + 1 ∧
    mark (fun _ => none) 5 .JA2FR true 7 = (fun _ => none : NVStats) 7 ∧
    statForNV (mark (fun _ => none) 5 .JA2FR true) .FR2JA 5 =
        statForNV (fun _ => none) .FR2JA 5 ∧
    (statForNV (fun _ => none) .JA2FR 5).correct ≤
        (statForNV
          (applyMarks (fun _ => none) [(5, .JA2FR, true), (5, .JA2FR, false)])
          .JA2FR 5).correct := by
  have h := mark_accounting
  refine ⟨?_,
    (h.2.1 (fun _ => none) 5 .JA2FR true).2.2.2.1 7 (by decide),
    (h.2.1 (fun _ => none) 5 .JA2FR true).2.2.2.2 .FR2JA (by decide),
    (h.2.2 (fun _ => none) [(5, .JA2FR, true), (5, .JA2FR, false)]
      .JA2FR 5).1⟩
  have h1 := (h.2.1 (fun _ => none) 5 .JA2FR true).1
  simpa using h1

theorem allHave_mono (pairs : List Pair) (s s2 : Nat → Stat)
    (hmono : ∀ id, (s id).correct ≤ (s2 id).correct)
    (h : allHaveAtLeastOneCorrect pairs s = true) :
    allHaveAtLeastOneCorrect pairs s2 = true := by
  unfold allHaveAtLeastOneCorrect at h ⊢
  rw [List.all_eq_true] at h ⊢
  intro p hp
  have hph := h p hp
  simp only [decide_eq_true_eq] at hph ⊢
  exact le_trans hph (hmono p.id)

/-- C9: the phase predicate is monotone — if every item has `correct ≥ 1`
under a lookup `s`, it still does under any lookup whose correct counters
are pointwise at least those of `s`, and in particular under the table
obtained from any sequence of mark (recordOutcome) calls; within a session
the scheduler therefore never falls back from phase 2 to phase 1. -/
theorem allHave_phase_monotone :
    (∀ (pairs : List Pair) (s s2 : Nat → Stat),
      (∀ id, (s id).correct ≤ (s2 id).correct) →
      allHaveAtLeastOneCorrect pairs s = true →
      allHaveAtLeastOneCorrect pairs s2 = true) ∧
    (∀ (pairs : List Pair) (S : NVStats) (dir : DrillDir)
        (ops : List (Nat × DrillDir × Bool)),
      allHaveAtLeastOneCorrect pairs (statForNV S dir) = true →
      allHaveAtLeastOneCorrect pairs (statForNV (applyMarks S ops) dir) = true) :=
  ⟨allHave_mono, fun pairs S dir ops h =>
    allHave_mono pairs (statForNV S dir) (statForNV (applyMarks S ops) dir)
      (fun id => (applyMarks_le S ops dir id).1) h⟩

/-- Witness for C9: Scenario C's table is in phase 2 and stays there after
a further wrong answer on id 1 and a correct answer on id 2. -/
theorem allHave_phase_monotone_witness :
    allHaveAtLeastOneCorrect scenarioPairs
      (statForNV (applyMarks scenarioCStats
        [(1, .JA2FR, false), (2, .JA2FR, true)]) .JA2FR) = true :=
  allHave_phase_monotone.2 scenarioPairs scenarioCStats .JA2FR
    [(1, .JA2FR, false), (2, .JA2FR, true)] (by decide)

/-- Stats table for the C4 counterexample, as restored from the server at
session start: item id 1 already has a correct answer, ids 2 and 3 are
unseen, so the phase-1 priority head is index 1, not 0. -/
def c4Stats : NVStats := fun i => if i = 1 then some ⟨⟨1, 0⟩, ⟨0, 0⟩⟩ else none

/-- C4 counterexample: with persisted last-position id 999 absent from the
items (ids 1, 2, 3), the `NewsVocab.tsx` restore effect shows index 0, but
the priority ordering of the restored stats starts with index 1 — the first
card shown is not `priorityOrder[0]`. -/
theorem newsVocab_restore_not_priority_head :
    newsVocabRestoreIdx scenarioPairs (some 999) = 0 ∧
    (sortedIndices scenarioPairs (statForNV c4Stats .JA2FR)).headD 0 = 1 ∧
    newsVocabRestoreIdx scenarioPairs (some 999) ≠
      (sortedIndices scenarioPairs (statForNV c4Stats .JA2FR)).headD 0 :=
  ⟨by decide, by decide, by decide⟩

/-- C4 (amended): when no restored last-position id matches an item, the
modules built on `pickFirstIndexByPriority` (`Nominalisation.tsx`,
`Temps.tsx`) start at the first element of the priority ordering — an
in-bounds index — whereas the `NewsVocab.tsx` restore effect falls back to
raw index 0 instead of the priority head. -/
theorem pickFirst_priority_head (pairs : List Pair) (stats : NomStats)
    (h : pairs ≠ []) :
    pickFirstIndexByPriority pairs stats < pairs.length ∧
    (∃ rest, sortedIndices pairs (statForNom stats) =
        pickFirstIndexByPriority pairs stats :: rest) ∧
    (∀ lastId : Nat, (∀ p ∈ pairs, p.id ≠ lastId) →
      newsVocabRestoreIdx pairs (some lastId) = 0) := by
  have hperm := sortedIndices_perm pairs (statForNom stats)
  have hne : sortedIndices pairs (statForNom stats) ≠ [] := by
    intro he
    have := hperm.length_eq
    rw [he] at this
    simp only [List.length_nil, List.length_range] at this
    exact h (List.length_eq_zero.mp this.symm)
  rcases hord : sortedIndices pairs (statForNom stats) with _ | ⟨c, rest⟩
  · exact absurd hord hne
  · have hpick : pickFirstIndexByPriority pairs stats = c := by
      unfold pickFirstIndexByPriority
      rw [hord]
      rfl
    have hcmem : c ∈ sortedIndices pairs (statForNom stats) := by
      rw [hord]
      exact List.mem_cons_self _ _
    have hclt : c < pairs.length := by
      have := hperm.mem_iff.mp hcmem
      simpa using this
    refine ⟨hpick ▸ hclt, ⟨rest, by rw [hpick]⟩, fun lastId hno => ?_⟩
    have hfind : pairs.findIdx? (fun x => x.id == lastId) = none := by
      rw [List.findIdx?_eq_none_iff]
      intro x hx
      simpa using hno x hx
    show (pairs.findIdx? (fun x => x.id == lastId)).getD 0 = 0
    rw [hfind]
    rfl

/-- Witness for C4 (amended) at Scenario E: persisted id 999 is absent from
ids {1, 2, 3}; `pickFirstIndexByPriority` on the restored stats gives the
in-bounds priority head 1, while the NewsVocab effect gives 0. -/
theorem pickFirst_priority_head_witness :
    pickFirstIndexByPriority scenarioPairs (fun i =>
        if i = 1 then some ⟨1, 0⟩ else none) < scenarioPairs.length ∧
    pickFirstIndexByPriority scenarioPairs (fun i =>
        if i = 1 then some ⟨1, 0⟩ else none) = 1 ∧
    newsVocabRestoreIdx scenarioPairs (some 999) = 0 := by
  have h := pickFirst_priority_head scenarioPairs
    (fun i => if i = 1 then some ⟨1, 0⟩ else none) (by decide)
  exact ⟨h.1, by decide, h.2.2 999 (by decide)⟩

/-- Stats table for the C5 counterexample: item id 1 has been answered
correctly once, ids 2 and 3 are unseen, so the phase-1 order is
`[1, 2, 0]`. -/
def c5Stats : NomStats := fun i => if i = 1 then some ⟨1, 0⟩ else none

/-- Session state for the C5 counterexample: the current card is the last
index 2, both other outcomes unrecorded, no cooldown. -/
def c5State : DrillState NomStats :=
  { pairs := scenarioPairs, stats := c5Stats, idx := 2, revealed := true,
    recent := [] }

/-- C5 counterexample: in `Nominalisation.tsx` (and identically in
`ModuleStub.tsx`), advancing manually past the last index resets to raw
index 0 without invoking `goNextPrioritized`; from the same state the
priority-based pick would give index 1. -/
theorem onManualNext_not_pickNext :
    (onManualNext c5State).idx = 0 ∧
    (goNextPrioritized statForNom c5State).idx = 1 ∧
    (onManualNext c5State).idx ≠ (goNextPrioritized statForNom c5State).idx :=
  ⟨by decide, by decide, by decide⟩

/-- C5 (amended): manual next resets `revealed` and increments the index by
one without consulting the priority order; when advancing past the last
index, `onNext` of `NewsVocab.tsx`/`Temps.tsx` wraps by invoking
`goNextPrioritized`, while `onManualNext` of
`Nominalisation.tsx`/`ModuleStub.tsx` wraps by a raw reset to index 0. -/
theorem manualNext_spec {σ : Type} (statFor : σ → Nat → Stat)
    (st : DrillState σ) :
    (st.idx < st.pairs.length - 1 →
      (onNext statFor st).idx = st.idx + 1 ∧
      (onNext statFor st).revealed = false) ∧
    (¬ st.idx < st.pairs.length - 1 →
      onNext statFor st = goNextPrioritized statFor st) ∧
    (st.pairs ≠ [] → st.idx + 1 < st.pairs.length →
      (onManualNext st).idx = st.idx + 1 ∧
      (onManualNext st).revealed = false) ∧
    (st.pairs ≠ [] → st.pairs.length ≤ st.idx + 1 →
      (onManualNext st).idx = 0 ∧ (onManualNext st).revealed = false) := by
  have hlen : st.pairs ≠ [] → ¬ st.pairs.length = 0 := fun hne => by
    simpa [List.length_eq_zero] using hne
  refine ⟨fun h => ?_, fun h => ?_, fun hne h => ?_, fun hne h => ?_⟩
  · unfold onNext
    rw [if_pos h]
    exact ⟨rfl, rfl⟩
  · unfold onNext
    rw [if_neg h]
  · unfold onManualNext
    rw [if_neg (hlen hne)]
    refine ⟨?_, rfl⟩
    show (if st.pairs.length ≤ st.idx + 1 then 0 else st.idx + 1) = st.idx + 1
    rw [if_neg (by omega)]
  · unfold onManualNext
    rw [if_neg (hlen hne)]
    refine ⟨?_, rfl⟩
    show (if st.pairs.length ≤ st.idx + 1 then 0 else st.idx + 1) = 0
    rw [if_pos h]

/-- Witness for C5 (amended): a mid-list manual advance increments, the
end-of-list `onNext` equals `goNextPrioritized`, and the end-of-list
`onManualNext` resets to 0. -/
theorem manualNext_spec_witness :
    (onNext statForNom
        { pairs := scenarioPairs, stats := c5Stats, idx := 0,
          revealed := true, recent := [] }).idx = 1 ∧
    onNext statForNom c5State = goNextPrioritized statForNom c5State ∧
    (onManualNext
        { pairs := scenarioPairs, stats := c5Stats, idx := 0,
          revealed := true, recent := [] }).idx = 1 ∧
    (onManualNext c5State).idx = 0 := by
  have h1 := manualNext_spec statForNom
    { pairs := scenarioPairs, stats := c5Stats, idx := 0,
      revealed := true, recent := ([] : List Nat) }
  have h2 := manualNext_spec statForNom c5State
  exact ⟨(h1.1 (by decide)).1, h2.2.1 (by decide),
    (h1.2.2.1 (by decide) (by decide)).1,
    (h2.2.2.2 (by decide) (by decide)).1⟩

end AmitieFrancais
